import Mathlib

/-!
# Verification of the bookyard collaborative-filtering core

Shallow embedding of the recommendation core of the repository:

* `src/backend/app/services/dataset_service.py` — `DatasetService.load_datasets`
  and `DatasetService._compute_similarity_matrix`;
* `src/backend/app/services/recommendation_engine.py` —
  `RecommendationEngine.recommend_books`;
* `src/backend/app/services/recommendation.py` — the free-function duplicate of
  the same two algorithms (`load_datasets_into_memory`, `recommend_books`), with
  identical logic; a single embedding covers both copies.

Modelling conventions:

* Rating values and matrix cells are embedded as exact rationals `ℚ`
  (the source computes with float64; exact arithmetic is the idealisation).
* Cosine similarity values are real numbers `ℝ` since they involve square
  roots; the recommendation path is parametric in the scalar type, so its
  theorems hold both for the exact `ℚ` models used in concrete evaluations
  and for the `ℝ`-valued similarity matrices a load produces.
* `np.argsort` is modelled as a stable ascending argsort (ties resolved by
  smaller index first).  NumPy's default sort is insertion sort — stable —
  for the small arrays of every concrete evaluation below, so the model
  agrees with the source exactly there.
* `pandas` structures: a DataFrame is a list of records; `pd.merge` (inner
  join) is a flat-map over matching rows of the right table preserving
  left-table order; `pivot_table(index, columns, values, fill_value=0)`
  groups by sorted distinct keys and aggregates duplicate cells with the
  default `aggfunc="mean"`; `sort_values` is a stable sort on the key.
* The process-wide singleton dataset context is explicit state passing:
  `DState` carries the fields `_books_data`, the pivot index/columns,
  `_user_book_matrix`, `_user_similarity` and `_is_loaded`, and each
  operation maps a state to a result (and, where the source mutates fields,
  a new state).
-/

namespace Bookyard

/-- A row of `Books.csv` as used by the core: `ISBN`, `Book-Title`,
`Book-Author`, `Year-Of-Publication`, `Publisher` (all opaque strings). -/
structure Book where
  isbn : String
  title : String
  author : String
  year : String
  publisher : String
deriving DecidableEq, Repr

/-- A row of `Book-Ratings.csv`: `User-ID`, `ISBN`, `Book-Rating`. -/
structure RatingRow where
  userId : Int
  isbn : String
  rating : ℚ
deriving DecidableEq, Repr

/-- A row of `Users.csv`; only `User-ID` is consumed by the core (the join
in `load_datasets` uses no other column). -/
structure UserRow where
  userId : Int
deriving DecidableEq, Repr

/-- The loaded dataset context: the fields of the `DatasetService`
singleton (equally, the module-level globals of `recommendation.py`).
`userIds`/`columns` are the index and columns of the `_user_book_matrix`
DataFrame, `matrix` its cell values, `sim` the `_user_similarity` array. -/
structure DState (α : Type) where
  books : List Book
  userIds : List Int
  columns : List String
  matrix : List (List α)
  sim : List (List α)
  isLoaded : Bool

section CoreDefs

variable {α : Type} [LinearOrderedField α]

/-- Stable insertion into an index list sorted by ascending value,
ties keeping the earlier-inserted (smaller) index first. -/
def insertAsc (v : List α) (i : ℕ) : List ℕ → List ℕ
  | [] => [i]
  | j :: t => if v.getD j 0 ≤ v.getD i 0 then j :: insertAsc v i t else i :: j :: t

/-- `np.argsort v` (ascending, stable). -/
def argsortAsc (v : List α) : List ℕ :=
  (List.range v.length).foldl (fun acc i => insertAsc v i acc) []

/-- `np.argsort(v)[::-1]`. -/
def argsortDesc (v : List α) : List ℕ :=
  (argsortAsc v).reverse

/-- `similarity_scores = user_similarity[user_index].copy();
similarity_scores[similarity_scores <= 0] = 0`. -/
def clippedScores (s : DState α) (ui : ℕ) : List α :=
  (s.sim.getD ui []).map (fun x => if x ≤ 0 then 0 else x)

/-- `similar_users_indices = np.argsort(similarity_scores)[::-1][1:k+1]`
followed by the mask `similarity_scores[similar_users_indices] > 0`.
`k` is the already-clamped neighbour count. -/
def neighborIndices (s : DState α) (ui k : ℕ) : List ℕ :=
  (((argsortDesc (clippedScores s ui)).drop 1).take k).filter
    (fun j => decide (0 < (clippedScores s ui).getD j 0))

/-- `np.sum(weights)` over the selected neighbours (before normalisation). -/
def simWeightSum (s : DState α) (ui k : ℕ) : α :=
  ((neighborIndices s ui k).map (fun j => (clippedScores s ui).getD j 0)).sum

/-- `weights = weights / np.sum(weights)`, paired with the neighbour index. -/
def neighborWeights (s : DState α) (ui k : ℕ) : List (ℕ × α) :=
  (neighborIndices s ui k).map
    (fun j => (j, (clippedScores s ui).getD j 0 / simWeightSum s ui k))

/-- `avg_book_ratings = np.zeros(shape[1]); for idx, u: avg += ratings[u] * w[idx]`,
read cell-wise: each of the `columns.length` cells accumulates the weighted
ratings of the neighbours in loop order. -/
def avgRatings (s : DState α) (ui k : ℕ) : List α :=
  (List.range s.columns.length).map (fun c =>
    (neighborWeights s ui k).foldl
      (fun acc jw => acc + jw.2 * ((s.matrix.getD jw.1 []).getD c 0)) 0)

/-- `user_rated_mask = ratings_matrix[user_index] > 0;
avg_book_ratings[user_rated_mask] = -1`, cell-wise over the avg vector. -/
def maskedRatings (s : DState α) (ui k : ℕ) : List α :=
  (List.range s.columns.length).map (fun c =>
    if 0 < (s.matrix.getD ui []).getD c 0 then -1 else (avgRatings s ui k).getD c 0)

/-- `top = np.argsort(avg)[::-1]; top = top[avg[top] >= 0][:top_n]`. -/
def topBookIndices (s : DState α) (ui k top_n : ℕ) : List ℕ :=
  (((argsortDesc (maskedRatings s ui k)).filter
      (fun c => decide (0 ≤ (maskedRatings s ui k).getD c 0))).take top_n)

/-- The metadata join and final ordering: select the `books_data` rows whose
ISBN is among the recommended columns (in `books_data` order, as
`books_data["ISBN"].isin(...)` does), attach
`avg_book_ratings[columns.get_loc(isbn)]`, then
`sort_values("Predicted-Rating", ascending=False)`. -/
def rankedBooks (s : DState α) (ui k top_n : ℕ) : List (Book × α) :=
  List.insertionSort (fun p q : Book × α => q.2 ≤ p.2)
    ((s.books.filter (fun b =>
        decide (b.isbn ∈ (topBookIndices s ui k top_n).map
          (fun c => s.columns.getD c "")))).map
      (fun b => (b, (maskedRatings s ui k).getD (s.columns.indexOf b.isbn) 0)))

/-- Result of `recommend_books`: either a recommendation DataFrame or one of
the string error returns of the source. -/
inductive RecResult (α : Type) where
  | notLoaded
  | userNotFound (userId : Int)
  | noSimilarUsers
  | noNewBooks
  | ok (recs : List (Book × α))
deriving DecidableEq

/-- Body of `recommend_books` after the user index has been resolved:
clamp `k`, select neighbours, blend, mask, rank. -/
def recommendCore (s : DState α) (ui k top_n : ℕ) : RecResult α :=
  let kc := min k (s.userIds.length - 1)
  if neighborIndices s ui kc = [] then .noSimilarUsers
  else if topBookIndices s ui kc top_n = [] then .noNewBooks
  else .ok (rankedBooks s ui kc top_n)

/-- `RecommendationEngine.recommend_books` (identically, `recommend_books`
of `recommendation.py`): guard on `_is_loaded`, resolve
`user_book_matrix.index.get_loc(user_id)`, then run the core. -/
def recommend_books (s : DState α) (userId : Int) (k top_n : ℕ) : RecResult α :=
  if s.isLoaded then
    match s.userIds.findIdx? (fun u => decide (u = userId)) with
    | none => .userNotFound userId
    | some ui => recommendCore s ui k top_n
  else .notLoaded

/-- The query as a transition on the dataset context.  The source method
only reads the context (`similarity_scores` and the metadata join are taken
on `.copy()`s; no field of `DatasetService` and no module global is
assigned), so the resulting context is the input context. -/
def recommendStateful (s : DState α) (userId : Int) (k top_n : ℕ) :
    RecResult α × DState α :=
  (recommend_books s userId k top_n, s)

/-- `np.count_nonzero` over the matrix. -/
def countNonzero (m : List (List α)) : ℕ :=
  (m.map (fun row => row.countP (fun x => decide (x ≠ 0)))).sum

/-- Result of `DatasetService.get_status`. -/
inductive StatusResult where
  | notLoaded
  | loaded (users books totalRatings : ℕ)
deriving DecidableEq, Repr

/-- `DatasetService.get_status`. -/
def get_status (s : DState α) : StatusResult :=
  if s.isLoaded then
    .loaded s.userIds.length s.columns.length (countNonzero s.matrix)
  else .notLoaded

end CoreDefs

/-! ## The load pipeline (`DatasetService.load_datasets`) -/

/-- The three parsed CSV sources, after `pd.read_csv` (row limiting and
malformed-line skipping are I/O concerns outside the model). -/
structure LoadInput where
  books : List Book
  ratings : List RatingRow
  users : List UserRow

/-- `ratings_data = ratings_data[ratings_data["Book-Rating"] > 0]`. -/
def positiveRatings (inp : LoadInput) : List RatingRow :=
  inp.ratings.filter (fun r => decide (0 < r.rating))

/-- `merged_df = pd.merge(ratings_data, books_data, on="ISBN")` then
`pd.merge(merged_df, users_data, on="User-ID")`: inner joins that keep one
row per matching pair, in left-table order; only the rating columns are
consumed downstream, so the merged row is the rating row (with source
multiplicity preserved). -/
def mergedRows (inp : LoadInput) : List RatingRow :=
  ((positiveRatings inp).flatMap (fun r =>
      (inp.books.filter (fun b => decide (b.isbn = r.isbn))).map (fun _ => r))).flatMap
    (fun r => (inp.users.filter (fun u => decide (u.userId = r.userId))).map (fun _ => r))

/-- Keep the rows of users with at least `min_user_ratings = 3` merged rows
(`groupby("User-ID").count`, then `isin` on the qualifying ids). -/
def userFiltered (inp : LoadInput) : List RatingRow :=
  (mergedRows inp).filter (fun r =>
    decide (3 ≤ (mergedRows inp).countP (fun x => decide (x.userId = r.userId))))

/-- Keep the rows of books with at least `min_book_ratings = 2` rows in the
user-filtered table (`groupby("ISBN").count`, then `isin`). -/
def bookFiltered (inp : LoadInput) : List RatingRow :=
  (userFiltered inp).filter (fun r =>
    decide (2 ≤ (userFiltered inp).countP (fun x => decide (x.isbn = r.isbn))))

/-- Sorted distinct `User-ID` keys, as `pivot_table` produces for the index. -/
def sortedKeysInt (l : List Int) : List Int :=
  List.insertionSort (fun a b => a ≤ b) l.dedup

/-- Sorted distinct `ISBN` keys, as `pivot_table` produces for the columns
(ascending lexicographic order; `a.data < b.data` is the definition of the
string order `a < b`). -/
def sortedKeysStr (l : List String) : List String :=
  List.insertionSort (fun a b => ¬ b.data < a.data) l.dedup

/-- One cell of `pivot_table(values="Book-Rating", fill_value=0)`: the mean
of the matching ratings (the default `aggfunc`), `0` when there are none. -/
def cellValue (tbl : List RatingRow) (u : Int) (c : String) : ℚ :=
  let rs := (tbl.filter (fun r => decide (r.userId = u ∧ r.isbn = c))).map
    (fun r => r.rating)
  if rs.length = 0 then 0 else rs.sum / (rs.length : ℚ)

/-- Index of the pivoted `_user_book_matrix`. -/
def pivotUserIds (inp : LoadInput) : List Int :=
  sortedKeysInt ((bookFiltered inp).map (fun r => r.userId))

/-- Columns of the pivoted `_user_book_matrix`. -/
def pivotColumns (inp : LoadInput) : List String :=
  sortedKeysStr ((bookFiltered inp).map (fun r => r.isbn))

/-- Cell values of the pivoted `_user_book_matrix`. -/
def pivotMatrix (inp : LoadInput) : List (List ℚ) :=
  (pivotUserIds inp).map (fun u =>
    (pivotColumns inp).map (fun c => cellValue (bookFiltered inp) u c))

/-! ## The similarity model (`DatasetService._compute_similarity_matrix`) -/

/-- `user_ratings = ratings_matrix[i][ratings_matrix[i] > 0]`. -/
def presentVals (row : List ℚ) : List ℚ :=
  row.filter (fun x => decide (0 < x))

/-- `user_mean = np.mean(user_ratings)`. -/
def rowMean (row : List ℚ) : ℚ :=
  (presentVals row).sum / ((presentVals row).length : ℚ)

/-- Mean-centering of one row, restricted to the present (`> 0`) cells; a
row with no present cell is left unchanged. -/
def centerRow (row : List ℚ) : List ℚ :=
  if (presentVals row).length = 0 then row
  else row.map (fun x => if 0 < x then x - rowMean row else x)

/-- `ratings_matrix_normalized`. -/
def centeredMatrix (m : List (List ℚ)) : List (List ℚ) :=
  m.map centerRow

/-- `np.dot` of two row vectors (trailing entries of the longer vector are
ignored, as all rows of a matrix have equal length). -/
def dotQ (v w : List ℚ) : ℚ :=
  (List.zipWith (fun a b => a * b) v w).sum

/-- The row norm as used by sklearn's `cosine_similarity`, which replaces a
zero norm by `1` before dividing (`normalize` sets `norms[norms == 0.0] = 1`). -/
noncomputable def normOrOne (v : List ℚ) : ℝ :=
  if dotQ v v = 0 then 1 else Real.sqrt ((dotQ v v : ℚ) : ℝ)

/-- Cosine similarity of two rows, with the zero-vector convention of
sklearn (a zero row yields similarity 0, as its dot products vanish). -/
noncomputable def cosineSim (v w : List ℚ) : ℝ :=
  ((dotQ v w : ℚ) : ℝ) / (normOrOne v * normOrOne w)

/-- Entry `(i, j)` of `cosine_similarity(ratings_matrix_normalized)`. -/
noncomputable def simEntry (m : List (List ℚ)) (i j : ℕ) : ℝ :=
  cosineSim ((centeredMatrix m).getD i []) ((centeredMatrix m).getD j [])

/-- `_user_similarity = cosine_similarity(ratings_matrix_normalized)`. -/
noncomputable def simMatrixR (m : List (List ℚ)) : List (List ℝ) :=
  (List.range m.length).map (fun i =>
    (List.range m.length).map (fun j => simEntry m i j))

/-- The statistics dictionary of a successful load. -/
structure LoadStats where
  totalUsers : ℕ
  totalBooks : ℕ
  totalRatings : ℕ
  avgRatingsPerUser : ℚ
  sparsity : ℚ
deriving DecidableEq, Repr

/-- `DatasetService.load_datasets` as a transition on the dataset context.

The source assigns `_books_data`, `_ratings_data`, `_users_data` and the
freshly pivoted `_user_book_matrix` to the singleton as it goes.  When the
pivoted matrix is empty, `cosine_similarity` (via sklearn's `check_array`)
raises on the 0-sample array, and the `except` branch sets
`_is_loaded = False` and re-raises: the new raw frames and the empty pivot
are already in place and `_user_similarity` keeps its previous value.
Otherwise the load succeeds, `_is_loaded = True`, and the statistics are
computed (their divisions are safe, the matrix being nonempty). -/
noncomputable def load_datasets (s : DState ℝ) (inp : LoadInput) :
    DState ℝ × Option LoadStats :=
  let tbl := bookFiltered inp
  let uids := pivotUserIds inp
  let cols := pivotColumns inp
  let mat := pivotMatrix inp
  if uids.length = 0 then
    ({ books := inp.books, userIds := uids, columns := cols,
       matrix := mat.map (fun row => row.map (fun q => (q : ℝ))),
       sim := s.sim, isLoaded := false }, none)
  else
    ({ books := inp.books, userIds := uids, columns := cols,
       matrix := mat.map (fun row => row.map (fun q => (q : ℝ))),
       sim := simMatrixR mat, isLoaded := true },
     some { totalUsers := uids.length, totalBooks := cols.length,
            totalRatings := tbl.length,
            avgRatingsPerUser := (tbl.length : ℚ) / (uids.length : ℚ),
            sparsity := 1 - (tbl.length : ℚ) / ((uids.length : ℚ) * (cols.length : ℚ)) })

/-! ## Generic lemmas about the embedded primitives -/

section ArgsortLemmas

variable {α : Type} [LinearOrderedField α]

theorem insertAsc_perm (v : List α) (i : ℕ) (l : List ℕ) :
    (insertAsc v i l).Perm (i :: l) := by
  induction l with
  | nil => exact List.Perm.refl _
  | cons j t ih =>
    unfold insertAsc
    split
    · exact (ih.cons j).trans (List.Perm.swap i j t)
    · exact List.Perm.refl _

theorem foldl_insertAsc_perm (v : List α) :
    ∀ (l acc : List ℕ),
      (l.foldl (fun acc i => insertAsc v i acc) acc).Perm (l ++ acc) := by
  intro l
  induction l with
  | nil => intro acc; simp
  | cons i t ih =>
    intro acc
    have h1 := ih (insertAsc v i acc)
    have h2 : (t ++ insertAsc v i acc).Perm (t ++ i :: acc) :=
      List.Perm.append_left t (insertAsc_perm v i acc)
    have h3 : (t ++ i :: acc).Perm (i :: (t ++ acc)) := List.perm_middle
    simpa using (h1.trans h2).trans h3

theorem argsortAsc_perm (v : List α) :
    (argsortAsc v).Perm (List.range v.length) := by
  simpa using foldl_insertAsc_perm v (List.range v.length) []

theorem mem_argsortDesc {v : List α} {j : ℕ} (h : j ∈ argsortDesc v) :
    j < v.length := by
  have := ((argsortAsc_perm v).mem_iff).mp (List.mem_reverse.mp h)
  exact List.mem_range.mp this

theorem foldl_add_eq_sum {β : Type} (f : β → α) (l : List β) (a : α) :
    l.foldl (fun acc x => acc + f x) a = a + (l.map f).sum := by
  induction l generalizing a with
  | nil => simp
  | cons x t ih => simp [ih (a + f x), add_assoc]

end ArgsortLemmas

section DotLemmas

theorem zipWith_mul_self (v : List ℚ) :
    List.zipWith (fun a b => a * b) v v = v.map (fun x => x * x) := by
  induction v with
  | nil => rfl
  | cons a t ih => simp [ih]

theorem dotQ_self_nonneg (v : List ℚ) : 0 ≤ dotQ v v := by
  unfold dotQ
  rw [zipWith_mul_self]
  refine List.sum_nonneg ?_
  intro x hx
  obtain ⟨y, _, rfl⟩ := List.mem_map.mp hx
  exact mul_self_nonneg y

theorem sum_map_sq_nonneg (v : List ℚ) : 0 ≤ (v.map (fun x => x * x)).sum := by
  refine List.sum_nonneg ?_
  intro y hy
  obtain ⟨z, _, rfl⟩ := List.mem_map.mp hy
  exact mul_self_nonneg z

theorem dotQ_self_eq_zero_iff (v : List ℚ) :
    dotQ v v = 0 ↔ ∀ x ∈ v, x = 0 := by
  unfold dotQ
  rw [zipWith_mul_self]
  induction v with
  | nil => simp
  | cons a t ih =>
    simp only [List.map_cons, List.sum_cons, List.mem_cons]
    constructor
    · intro h
      have h1 : 0 ≤ a * a := mul_self_nonneg a
      have h2 : 0 ≤ (t.map (fun x => x * x)).sum := sum_map_sq_nonneg t
      have ha : a = 0 := by
        have : a * a = 0 := by linarith
        exact mul_self_eq_zero.mp this
      have ht : ∀ x ∈ t, x = 0 := ih.mp (by linarith)
      intro x hx
      rcases hx with rfl | hx
      · exact ha
      · exact ht x hx
    · intro h
      have ha : a = 0 := h a (Or.inl rfl)
      have ht : (t.map (fun x => x * x)).sum = 0 :=
        ih.mpr (fun x hx => h x (Or.inr hx))
      rw [ha, ht, mul_zero, add_zero]

theorem dotQ_eq_zero_of_left (v w : List ℚ) (h : ∀ x ∈ v, x = 0) :
    dotQ v w = 0 := by
  unfold dotQ
  refine List.sum_eq_zero ?_
  intro y hy
  obtain ⟨i, hi, rfl⟩ := List.mem_iff_getElem.mp hy
  rw [List.length_zipWith] at hi
  have h1 : i < v.length := lt_of_lt_of_le hi (min_le_left _ _)
  have h2 : i < w.length := lt_of_lt_of_le hi (min_le_right _ _)
  rw [List.getElem_zipWith]
  have hz : v[i] = 0 := h _ (List.getElem_mem _)
  rw [hz, zero_mul]

theorem dotQ_comm (v w : List ℚ) : dotQ v w = dotQ w v := by
  unfold dotQ
  congr 1
  induction v generalizing w with
  | nil => cases w <;> rfl
  | cons a t ih =>
    cases w with
    | nil => rfl
    | cons b u => simp [ih u, mul_comm]

theorem cosineSim_self_of_ne_zero {v : List ℚ} (h : dotQ v v ≠ 0) :
    cosineSim v v = 1 := by
  unfold cosineSim normOrOne
  rw [if_neg h]
  have hnn : (0 : ℝ) ≤ ((dotQ v v : ℚ) : ℝ) := by
    exact_mod_cast dotQ_self_nonneg v
  rw [Real.mul_self_sqrt hnn]
  refine div_self ?_
  exact_mod_cast h

theorem cosineSim_zero_left {v : List ℚ} (h : dotQ v v = 0) (w : List ℚ) :
    cosineSim v w = 0 := by
  unfold cosineSim
  have h0 : dotQ v w = 0 :=
    dotQ_eq_zero_of_left v w ((dotQ_self_eq_zero_iff v).mp h)
  rw [h0]
  simp

theorem cosineSim_zero_right (v : List ℚ) {w : List ℚ} (h : dotQ w w = 0) :
    cosineSim v w = 0 := by
  unfold cosineSim
  have h0 : dotQ v w = 0 := by
    rw [dotQ_comm]
    exact dotQ_eq_zero_of_left w v ((dotQ_self_eq_zero_iff w).mp h)
  rw [h0]
  simp

theorem centeredMatrix_getD (m : List (List ℚ)) (i : ℕ) :
    (centeredMatrix m).getD i [] = centerRow (m.getD i []) := by
  unfold centeredMatrix
  rw [List.getD_eq_getElem?_getD, List.getD_eq_getElem?_getD, List.getElem?_map]
  cases h : m[i]? with
  | none => simp [centerRow, presentVals]
  | some row => simp

end DotLemmas

/-! ## Sample data used in concrete evaluations -/

/-- Book metadata with placeholder presentation fields. -/
def sampleBook (i : String) : Book := ⟨i, "t", "a", "y", "p"⟩

/-- A loaded context with two users having identical rating rows `[1,2,3]`:
their mean-centered vectors coincide, so every similarity entry is `1`
(`C1_code_bug_eval` checks this against the similarity model). -/
def stC1 : DState ℚ :=
  { books := [sampleBook "B1", sampleBook "B2", sampleBook "B3"],
    userIds := [1, 2], columns := ["B1", "B2", "B3"],
    matrix := [[1, 2, 3], [1, 2, 3]], sim := [[1, 1], [1, 1]], isLoaded := true }

/-! ## C1 — neighbour selection and the self-exclusion slice -/

/-- C1: the spec claims the `k` selected neighbours never contain the target
user.  The code drops only position 0 of the descending argsort
(`np.argsort(scores)[::-1][1:k+1]`), assuming self sits there; when another
user ties the target's self-similarity of 1.0, the tie-break places that
user at position 0 and the target user itself is selected as a neighbour.
This theorem evaluates the embedding on such a dataset: two users with
identical rating rows (the similarity model genuinely produces the all-ones
similarity matrix for it), target user 1 at row index 0, `k = 1`; the
selected neighbour set is `[0]` — exactly the target user. -/
theorem C1_code_bug_eval :
    simMatrixR stC1.matrix = [[1, 1], [1, 1]] ∧
    stC1.userIds.findIdx? (fun u => decide (u = 1)) = some 0 ∧
    neighborIndices stC1 0 (min 1 (stC1.userIds.length - 1)) = [0] := by
  refine ⟨?_, by decide, by decide⟩
  have hc : centeredMatrix stC1.matrix = [[-1, 0, 1], [-1, 0, 1]] := by
    with_unfolding_all decide
  have hd : dotQ [(-1 : ℚ), 0, 1] [(-1 : ℚ), 0, 1] = 2 := by
    with_unfolding_all decide
  have he : ∀ i j : ℕ, i < 2 → j < 2 → simEntry stC1.matrix i j = 1 := by
    intro i j hi hj
    unfold simEntry
    rw [hc]
    have hgi : ([[(-1 : ℚ), 0, 1], [-1, 0, 1]]).getD i [] = [(-1 : ℚ), 0, 1] := by
      interval_cases i <;> rfl
    have hgj : ([[(-1 : ℚ), 0, 1], [-1, 0, 1]]).getD j [] = [(-1 : ℚ), 0, 1] := by
      interval_cases j <;> rfl
    rw [hgi, hgj]
    refine cosineSim_self_of_ne_zero ?_
    rw [hd]
    norm_num
  unfold simMatrixR
  have hl : stC1.matrix.length = 2 := rfl
  rw [hl]
  have hr : List.range 2 = [0, 1] := rfl
  rw [hr]
  simp only [List.map_cons, List.map_nil]
  rw [he 0 0 (by norm_num) (by norm_num), he 0 1 (by norm_num) (by norm_num),
    he 1 0 (by norm_num) (by norm_num), he 1 1 (by norm_num) (by norm_num)]

/-! ## C8 — silent clamping of oversized k -/

/-- C8: when the requested neighbour count `k` exceeds `num_rows - 1`, the
result is identical to requesting `num_rows - 1` directly — the source
clamps with `k = min(k, len(user_book_matrix) - 1)` before any other use
of `k`. -/
theorem C8_k_clamped {α : Type} [LinearOrderedField α] (s : DState α)
    (uid : Int) (k n : ℕ) (h : s.userIds.length - 1 < k) :
    recommend_books s uid k n = recommend_books s uid (s.userIds.length - 1) n := by
  unfold recommend_books recommendCore
  rw [Nat.min_eq_right h.le, Nat.min_self]

/-- Witness for C8 at a concrete loaded context with 2 users and `k = 5`. -/
theorem C8_k_clamped_witness :
    stC1.userIds.length - 1 < 5 ∧
    recommend_books stC1 1 5 2 = recommend_books stC1 1 (stC1.userIds.length - 1) 2 :=
  ⟨by decide, C8_k_clamped stC1 1 5 2 (by decide)⟩

/-! ## C9 — recommend is a pure read of the context -/

/-- C9: a recommendation query leaves the dataset context untouched (the
source only reads the singleton's fields, mutating local `.copy()`s), and a
second identical call against the resulting context returns the identical
output. -/
theorem C9_idempotent_pure {α : Type} [LinearOrderedField α] (s : DState α)
    (uid : Int) (k n : ℕ) :
    (recommendStateful s uid k n).2 = s ∧
    (recommendStateful ((recommendStateful s uid k n).2) uid k n).1 =
      (recommendStateful s uid k n).1 :=
  ⟨rfl, rfl⟩

/-! ## C10 — every similarity entry lies in [-1, 1] -/

theorem dotQ_eq_sum_range (v w : List ℚ) :
    dotQ v w = ∑ i ∈ Finset.range (min v.length w.length), v.getD i 0 * w.getD i 0 := by
  induction v generalizing w with
  | nil => simp [dotQ]
  | cons a t ih =>
    cases w with
    | nil => simp [dotQ]
    | cons b u =>
      have hmin : min (a :: t).length (b :: u).length = min t.length u.length + 1 := by
        simp only [List.length_cons]
        omega
      rw [hmin, Finset.sum_range_succ']
      simp only [List.getD_cons_succ, List.getD_cons_zero]
      unfold dotQ
      simp only [List.zipWith_cons_cons, List.sum_cons]
      rw [show (List.zipWith (fun a b => a * b) t u).sum = dotQ t u from rfl, ih u]
      ring

theorem dotQ_sq_le (v w : List ℚ) :
    dotQ v w ^ 2 ≤ dotQ v v * dotQ w w := by
  have hv : ∑ i ∈ Finset.range (min v.length w.length), v.getD i 0 ^ 2 ≤ dotQ v v := by
    rw [dotQ_eq_sum_range v v, min_self]
    simp only [← pow_two]
    refine Finset.sum_le_sum_of_subset_of_nonneg
      (Finset.range_subset.mpr (min_le_left _ _)) ?_
    intro i _ _
    exact sq_nonneg _
  have hw : ∑ i ∈ Finset.range (min v.length w.length), w.getD i 0 ^ 2 ≤ dotQ w w := by
    rw [dotQ_eq_sum_range w w, min_self]
    simp only [← pow_two]
    refine Finset.sum_le_sum_of_subset_of_nonneg
      (Finset.range_subset.mpr (min_le_right _ _)) ?_
    intro i _ _
    exact sq_nonneg _
  have hcs := Finset.sum_mul_sq_le_sq_mul_sq (Finset.range (min v.length w.length))
    (fun i => v.getD i 0) (fun i => w.getD i 0)
  rw [dotQ_eq_sum_range v w]
  refine hcs.trans ?_
  refine mul_le_mul hv hw ?_ ((Finset.sum_nonneg ?_).trans hv)
  · exact Finset.sum_nonneg (fun i _ => sq_nonneg _)
  · intro i _
    exact sq_nonneg _

theorem cosineSim_bounds (v w : List ℚ) :
    -1 ≤ cosineSim v w ∧ cosineSim v w ≤ 1 := by
  by_cases hp : dotQ v v = 0
  · rw [cosineSim_zero_left hp w]
    norm_num
  by_cases hq : dotQ w w = 0
  · rw [cosineSim_zero_right v hq]
    norm_num
  have hp' : 0 < dotQ v v := lt_of_le_of_ne (dotQ_self_nonneg v) (Ne.symm hp)
  have hq' : 0 < dotQ w w := lt_of_le_of_ne (dotQ_self_nonneg w) (Ne.symm hq)
  unfold cosineSim normOrOne
  rw [if_neg hp, if_neg hq]
  have hpr : (0 : ℝ) < ((dotQ v v : ℚ) : ℝ) := by exact_mod_cast hp'
  have hqr : (0 : ℝ) < ((dotQ w w : ℚ) : ℝ) := by exact_mod_cast hq'
  have hden : 0 < Real.sqrt ((dotQ v v : ℚ) : ℝ) * Real.sqrt ((dotQ w w : ℚ) : ℝ) :=
    mul_pos (Real.sqrt_pos.mpr hpr) (Real.sqrt_pos.mpr hqr)
  have key : ((dotQ v w : ℚ) : ℝ) ^ 2 ≤ ((dotQ v v : ℚ) : ℝ) * ((dotQ w w : ℚ) : ℝ) := by
    exact_mod_cast dotQ_sq_le v w
  have habs : |((dotQ v w : ℚ) : ℝ)| ≤
      Real.sqrt ((dotQ v v : ℚ) : ℝ) * Real.sqrt ((dotQ w w : ℚ) : ℝ) := by
    rw [← Real.sqrt_mul hpr.le, ← Real.sqrt_sq_eq_abs]
    exact Real.sqrt_le_sqrt key
  have hquot : |((dotQ v w : ℚ) : ℝ) /
      (Real.sqrt ((dotQ v v : ℚ) : ℝ) * Real.sqrt ((dotQ w w : ℚ) : ℝ))| ≤ 1 := by
    rw [abs_div, abs_of_pos hden]
    exact div_le_one_of_le₀ habs hden.le
  exact abs_le.mp hquot

/-- C10: every entry of the similarity matrix computed by
`_compute_similarity_matrix` lies in `[-1, 1]`: each entry is the cosine of
two real (mean-centered rational) vectors, with the zero-norm convention
yielding 0.  Since only a load recomputes `_user_similarity`, the invariant
persists across queries (`recommendStateful` never changes the context, cf.
the C9 theorem). -/
theorem C10_sim_entries_bounded (m : List (List ℚ)) (i j : ℕ) :
    -1 ≤ simEntry m i j ∧ simEntry m i j ≤ 1 := by
  unfold simEntry
  exact cosineSim_bounds _ _

/-! ## C4 — similarity diagonal -/

theorem mem_presentVals {row : List ℚ} {x : ℚ} :
    x ∈ presentVals row ↔ x ∈ row ∧ 0 < x := by
  simp [presentVals]

theorem centerRow_all_zero (row : List ℚ) (hpos : ∀ x ∈ row, 0 ≤ x)
    (heq : ∀ a ∈ presentVals row, ∀ b ∈ presentVals row, a = b) :
    ∀ y ∈ centerRow row, y = 0 := by
  unfold centerRow
  split
  · next hlen =>
    intro y hy
    have hnp : ¬ 0 < y := by
      intro h0
      have : y ∈ presentVals row := mem_presentVals.mpr ⟨hy, h0⟩
      rw [List.length_eq_zero.mp hlen] at this
      exact absurd this (List.not_mem_nil y)
    exact le_antisymm (not_lt.mp hnp) (hpos y hy)
  · next hlen =>
    intro y hy
    obtain ⟨x, hx, rfl⟩ := List.mem_map.mp hy
    by_cases h0 : 0 < x
    · rw [if_pos h0]
      have hxp : x ∈ presentVals row := mem_presentVals.mpr ⟨hx, h0⟩
      have hall : ∀ a ∈ presentVals row, a = x := fun a ha => heq a ha x hxp
      have hsum : (presentVals row).sum = (presentVals row).length • x :=
        List.sum_eq_card_nsmul _ x hall
      have hmean : rowMean row = x := by
        unfold rowMean
        rw [hsum, nsmul_eq_mul]
        have hne : ((presentVals row).length : ℚ) ≠ 0 := by
          exact_mod_cast hlen
        field_simp
      rw [hmean, sub_self]
    · rw [if_neg h0]
      exact le_antisymm (not_lt.mp h0) (hpos x hx)

theorem centerRow_dot_ne_zero {row : List ℚ} {a b : ℚ}
    (ha : a ∈ presentVals row) (hb : b ∈ presentVals row) (hab : a ≠ b) :
    dotQ (centerRow row) (centerRow row) ≠ 0 := by
  intro h
  have hz := (dotQ_self_eq_zero_iff _).mp h
  have hlen : ¬ (presentVals row).length = 0 := by
    intro h0
    rw [List.length_eq_zero.mp h0] at ha
    exact absurd ha (List.not_mem_nil a)
  unfold centerRow at hz
  rw [if_neg hlen] at hz
  obtain ⟨haro, hapos⟩ := mem_presentVals.mp ha
  obtain ⟨hbro, hbpos⟩ := mem_presentVals.mp hb
  have h1 := hz _ (List.mem_map_of_mem (fun x => if 0 < x then x - rowMean row else x) haro)
  have h2 := hz _ (List.mem_map_of_mem (fun x => if 0 < x then x - rowMean row else x) hbro)
  simp only [if_pos hapos] at h1
  simp only [if_pos hbpos] at h2
  exact hab (by linarith [sub_eq_zero.mp h1, sub_eq_zero.mp h2])

/-- C4 counterexample input: user 1 rates three books with the constant
value 7 (three ratings, so the user survives every filter), user 2 rates
the same books 1, 2, 3 (so each book has two ratings). -/
def inpC4 : LoadInput :=
  { books := [sampleBook "B1", sampleBook "B2", sampleBook "B3"],
    ratings := [⟨1, "B1", 7⟩, ⟨1, "B2", 7⟩, ⟨1, "B3", 7⟩,
                ⟨2, "B1", 1⟩, ⟨2, "B2", 2⟩, ⟨2, "B3", 3⟩],
    users := [⟨1⟩, ⟨2⟩] }

/-- The empty dataset context (the state before any load). -/
def emptyStateR : DState ℝ :=
  { books := [], userIds := [], columns := [], matrix := [], sim := [],
    isLoaded := false }

/-- C4 counterexample: the claim says `sim(i,i) = 1` for every user with at
least one rating.  Loading `inpC4` succeeds, user 1 occupies row 0 with
three nonzero cells, yet `sim(0,0) = 0`: all its ratings are equal, so
mean-centering zeroes the entire row and the zero-norm convention applies. -/
theorem C4_counterexample :
    (load_datasets emptyStateR inpC4).1.isLoaded = true ∧
    pivotMatrix inpC4 = [[7, 7, 7], [1, 2, 3]] ∧
    ((pivotMatrix inpC4).getD 0 []).countP (fun x => decide (x ≠ 0)) = 3 ∧
    ((load_datasets emptyStateR inpC4).1.sim.getD 0 []).getD 0 0 = 0 := by
  refine ⟨by with_unfolding_all decide, by with_unfolding_all decide,
    by with_unfolding_all decide, ?_⟩
  have hsim : (load_datasets emptyStateR inpC4).1.sim = simMatrixR (pivotMatrix inpC4) := by
    with_unfolding_all rfl
  rw [hsim]
  have hone : (simMatrixR (pivotMatrix inpC4)).getD 0 [] =
      (List.range (pivotMatrix inpC4).length).map (fun j => simEntry (pivotMatrix inpC4) 0 j) := by
    unfold simMatrixR
    have hlen : (pivotMatrix inpC4).length = 2 := by with_unfolding_all decide
    rw [hlen]
    rfl
  rw [hone]
  have hlen : (pivotMatrix inpC4).length = 2 := by with_unfolding_all decide
  rw [hlen]
  have hr : List.range 2 = [0, 1] := rfl
  rw [hr]
  simp only [List.map_cons, List.map_nil, List.getD_cons_zero]
  unfold simEntry
  rw [centeredMatrix_getD]
  have hrow : (pivotMatrix inpC4).getD 0 [] = [7, 7, 7] := by with_unfolding_all decide
  rw [hrow]
  have hcr : centerRow [(7 : ℚ), 7, 7] = [0, 0, 0] := by with_unfolding_all decide
  rw [hcr]
  exact cosineSim_zero_left (by with_unfolding_all decide) _

/-- C4 amended: the diagonal entry `sim(i,i)` is `0` whenever the user's
present (positive) cells are all equal — including the no-ratings case —
because mean-centering zeroes the row; it is `1` whenever the user has two
distinct present values.  (The original claim asserted `1` for every user
with at least one rating; a constant-rating user refutes it, see
`C4_counterexample`.)  The hypothesis that the row cells are nonnegative
holds for every pivoted matrix, whose cells are means of positive ratings
or the fill value 0. -/
theorem C4_diag_amended (m : List (List ℚ)) (i : ℕ)
    (hpos : ∀ x ∈ m.getD i [], 0 ≤ x) :
    ((∀ a ∈ presentVals (m.getD i []), ∀ b ∈ presentVals (m.getD i []), a = b) →
      simEntry m i i = 0) ∧
    ((∃ a ∈ presentVals (m.getD i []), ∃ b ∈ presentVals (m.getD i []), a ≠ b) →
      simEntry m i i = 1) := by
  constructor
  · intro heq
    unfold simEntry
    rw [centeredMatrix_getD]
    exact cosineSim_zero_left
      ((dotQ_self_eq_zero_iff _).mpr (centerRow_all_zero _ hpos heq)) _
  · rintro ⟨a, ha, b, hb, hab⟩
    unfold simEntry
    rw [centeredMatrix_getD]
    exact cosineSim_self_of_ne_zero (centerRow_dot_ne_zero ha hb hab)

/-- Witness for the amended C4 at the counterexample matrix: row 0 has the
constant present values (diagonal 0), row 1 has distinct ones (diagonal 1). -/
theorem C4_diag_amended_witness :
    simEntry [[(7 : ℚ), 7, 7], [1, 2, 3]] 0 0 = 0 ∧
    simEntry [[(7 : ℚ), 7, 7], [1, 2, 3]] 1 1 = 1 :=
  ⟨(C4_diag_amended [[(7 : ℚ), 7, 7], [1, 2, 3]] 0 (by with_unfolding_all decide)).1
      (by with_unfolding_all decide),
   (C4_diag_amended [[(7 : ℚ), 7, 7], [1, 2, 3]] 1 (by with_unfolding_all decide)).2
      (by with_unfolding_all decide)⟩

/-! ## Auxiliary facts about neighbour selection and blending -/

section NeighborLemmas

variable {α : Type} [LinearOrderedField α]

theorem getD_range_map (n c : ℕ) (f : ℕ → α) (h : c < n) :
    ((List.range n).map f).getD c 0 = f c := by
  rw [List.getD_eq_getElem?_getD, List.getElem?_map, List.getElem?_range h]
  rfl

theorem neighborIndices_pos {s : DState α} {ui k j : ℕ}
    (hj : j ∈ neighborIndices s ui k) :
    0 < (clippedScores s ui).getD j 0 := by
  unfold neighborIndices at hj
  exact of_decide_eq_true (List.mem_filter.mp hj).2

theorem simWeightSum_pos {s : DState α} {ui k : ℕ}
    (h : neighborIndices s ui k ≠ []) : 0 < simWeightSum s ui k := by
  unfold simWeightSum
  refine List.sum_pos _ ?_ ?_
  · intro x hx
    obtain ⟨j, hj, rfl⟩ := List.mem_map.mp hx
    exact neighborIndices_pos hj
  · simpa using h

theorem avgRatings_getD {s : DState α} {ui k c : ℕ} (hc : c < s.columns.length) :
    (avgRatings s ui k).getD c 0 =
      ((neighborWeights s ui k).map
        (fun jw => jw.2 * ((s.matrix.getD jw.1 []).getD c 0))).sum := by
  unfold avgRatings
  rw [getD_range_map _ _ _ hc, foldl_add_eq_sum, zero_add]

theorem maskedRatings_getD {s : DState α} {ui k c : ℕ} (hc : c < s.columns.length) :
    (maskedRatings s ui k).getD c 0 =
      if 0 < (s.matrix.getD ui []).getD c 0 then -1
      else (avgRatings s ui k).getD c 0 := by
  unfold maskedRatings
  rw [getD_range_map _ _ _ hc]

end NeighborLemmas

/-! ## Sample loaded contexts for the query-level evaluations -/

/-- A loaded context where items "I2" and "I3" receive the same predicted
score 4 from the single positive neighbour (user 2, row 1), while the
target (user 1, row 0) has rated only the first column. -/
def stTie : DState ℚ :=
  { books := [sampleBook "I2", sampleBook "I3"], userIds := [1, 2],
    columns := ["I1", "I2", "I3"],
    matrix := [[1, 0, 0], [0, 4, 4]], sim := [[1, 1/2], [1/2, 1]],
    isLoaded := true }

/-- The same ratings with duplicated item metadata: `books_data` holds two
rows with ISBN "I3", so the `isin` join duplicates the recommended row. -/
def stDupMeta : DState ℚ :=
  { books := [sampleBook "I3", sampleBook "I3"], userIds := [1, 2],
    columns := ["I1", "I2", "I3"],
    matrix := [[1, 0, 0], [0, 4, 4]], sim := [[1, 1/2], [1/2, 1]],
    isLoaded := true }

/-! ## C7 — predicted scores are normalized similarity-weighted sums -/

/-- C7: for a column the target has not rated, the score used for ranking
equals the sum over the selected neighbours of the normalized similarity
weight times the neighbour's stored rating for that column (a neighbour
that never rated the item contributes its stored 0), and the normalized
weights sum to 1. -/
theorem C7_weighted_prediction (s : DState ℚ) (ui k c : ℕ)
    (hc : c < s.columns.length)
    (hns : neighborIndices s ui k ≠ [])
    (hnr : ¬ 0 < (s.matrix.getD ui []).getD c 0) :
    ((neighborIndices s ui k).map
        (fun j => (clippedScores s ui).getD j 0 / simWeightSum s ui k)).sum = 1 ∧
    (maskedRatings s ui k).getD c 0 =
      ((neighborIndices s ui k).map
        (fun j => ((clippedScores s ui).getD j 0 / simWeightSum s ui k) *
          ((s.matrix.getD j []).getD c 0))).sum := by
  constructor
  · have hpos : 0 < simWeightSum s ui k := simWeightSum_pos hns
    simp only [div_eq_mul_inv]
    rw [List.sum_map_mul_right]
    exact mul_inv_cancel₀ hpos.ne'
  · rw [maskedRatings_getD hc, if_neg hnr, avgRatings_getD hc]
    unfold neighborWeights
    rw [List.map_map]
    rfl

/-- Witness for C7 at `stTie`: target row 0, one neighbour (row 1),
column 1 unrated by the target. -/
theorem C7_weighted_prediction_witness :
    ((neighborIndices stTie 0 1).map
        (fun j => (clippedScores stTie 0).getD j 0 / simWeightSum stTie 0 1)).sum = 1 ∧
    (maskedRatings stTie 0 1).getD 1 0 =
      ((neighborIndices stTie 0 1).map
        (fun j => ((clippedScores stTie 0).getD j 0 / simWeightSum stTie 0 1) *
          ((stTie.matrix.getD j []).getD 1 0))).sum :=
  C7_weighted_prediction stTie 0 1 1 (by decide) (by with_unfolding_all decide)
    (by with_unfolding_all decide)

/-! ## Inversion of a successful recommendation -/

theorem recommend_books_ok {α : Type} [LinearOrderedField α] {s : DState α}
    {uid : Int} {k n : ℕ} {L : List (Book × α)}
    (h : recommend_books s uid k n = .ok L) :
    ∃ ui, s.userIds.findIdx? (fun u => decide (u = uid)) = some ui ∧
      L = rankedBooks s ui (min k (s.userIds.length - 1)) n := by
  unfold recommend_books at h
  split at h
  · split at h
    · exact absurd h (by simp)
    · rename_i ui heq
      simp only [recommendCore] at h
      split at h
      · exact absurd h (by simp)
      · split at h
        · exact absurd h (by simp)
        · injection h with h'
          exact ⟨ui, heq, h'.symm⟩
  · exact absurd h (by simp)

/-! ## C2 — already-rated items are never returned -/

/-- C2: every item row returned by a successful `recommend_books` call has
value `≤ 0` (i.e. not `> 0`) in the target user's matrix row at that item's
column: rated cells are overwritten with the sentinel `-1` before ranking
and the ranking keeps only scores `≥ 0`.  `ui` is the row index the source
resolves for `user_id`, and the column lookup is `columns.get_loc(isbn)`
(first index), which needs the pivot columns to be distinct — true of every
pivoted matrix. -/
theorem C2_no_already_rated {s : DState ℚ} {uid : Int} {k n : ℕ}
    {L : List (Book × ℚ)} {ui : ℕ}
    (hcols : s.columns.Nodup)
    (hui : s.userIds.findIdx? (fun u => decide (u = uid)) = some ui)
    (hok : recommend_books s uid k n = .ok L) :
    ∀ p ∈ L, (s.matrix.getD ui []).getD (s.columns.indexOf p.1.isbn) 0 ≤ 0 := by
  obtain ⟨ui', hui', hL⟩ := recommend_books_ok hok
  rw [hui] at hui'
  obtain rfl : ui = ui' := Option.some.inj hui'
  intro p hp
  rw [hL] at hp
  unfold rankedBooks at hp
  rw [List.mem_insertionSort] at hp
  obtain ⟨b, hbfilter, rfl⟩ := List.mem_map.mp hp
  have hbmem := List.mem_filter.mp hbfilter
  have hisbn : b.isbn ∈ (topBookIndices s ui (min k (s.userIds.length - 1)) n).map
      (fun c => s.columns.getD c "") := of_decide_eq_true hbmem.2
  obtain ⟨c, hcTop, hceq⟩ := List.mem_map.mp hisbn
  have hcFilter : c ∈ (argsortDesc (maskedRatings s ui (min k (s.userIds.length - 1)))).filter
      (fun c => decide (0 ≤ (maskedRatings s ui (min k (s.userIds.length - 1))).getD c 0)) := by
    unfold topBookIndices at hcTop
    exact List.mem_of_mem_take hcTop
  have hge : (0 : ℚ) ≤ (maskedRatings s ui (min k (s.userIds.length - 1))).getD c 0 :=
    of_decide_eq_true (List.mem_filter.mp hcFilter).2
  have hclen : c < (maskedRatings s ui (min k (s.userIds.length - 1))).length :=
    mem_argsortDesc (List.mem_filter.mp hcFilter).1
  have hccols : c < s.columns.length := by
    simpa [maskedRatings] using hclen
  have hgetc : s.columns[c] = b.isbn := by
    rw [← hceq, List.getD_eq_getElem?_getD, List.getElem?_eq_getElem hccols]
    rfl
  have hidx : s.columns.indexOf b.isbn = c := by
    rw [← hgetc]
    exact List.indexOf_getElem hcols c hccols
  show (s.matrix.getD ui []).getD (s.columns.indexOf b.isbn) 0 ≤ 0
  rw [hidx]
  by_contra hpos
  rw [maskedRatings_getD hccols, if_pos (lt_of_not_le hpos)] at hge
  exact absurd hge (by norm_num)

/-- Witness for C2 at `stTie`: the returned item "I2" occupies column 1,
unrated (value 0) in the target row. -/
theorem C2_no_already_rated_witness :
    stTie.columns.Nodup ∧
    (stTie.matrix.getD 0 []).getD
      (stTie.columns.indexOf (sampleBook "I2").isbn) 0 ≤ 0 :=
  ⟨by decide,
    @C2_no_already_rated stTie 1 1 2
      [(sampleBook "I2", 4), (sampleBook "I3", 4)] 0
      (by decide) (by decide) (by with_unfolding_all decide)
      (sampleBook "I2", 4)
      (by with_unfolding_all decide)⟩

/-! ## C6 — result length and ordering -/

instance : IsTotal (Book × ℚ) (fun p q => q.2 ≤ p.2) :=
  ⟨fun a b => le_total b.2 a.2⟩

instance : IsTrans (Book × ℚ) (fun p q => q.2 ≤ p.2) :=
  ⟨fun _ _ _ h1 h2 => le_trans h2 h1⟩

/-- C6 counterexample: the claim requires the result to be sorted
*strictly* descending and of length at most `top_n`.  At `stTie` the two
returned items share the predicted score 4, so strict descent fails; at
`stDupMeta` the metadata table carries ISBN "I3" twice, and the `isin` join
returns both rows although `top_n = 1`. -/
theorem C6_counterexample :
    recommend_books stTie 1 1 2 =
      .ok [(sampleBook "I2", 4), (sampleBook "I3", 4)] ∧
    ¬ ([((sampleBook "I2" : Book), (4 : ℚ)), (sampleBook "I3", 4)].Sorted
        (fun p q : Book × ℚ => q.2 < p.2)) ∧
    recommend_books stDupMeta 1 1 1 =
      .ok [(sampleBook "I3", 4), (sampleBook "I3", 4)] ∧
    1 < [((sampleBook "I3" : Book), (4 : ℚ)), (sampleBook "I3", 4)].length := by
  exact ⟨by with_unfolding_all decide, by decide,
    by with_unfolding_all decide, by decide⟩

/-- C6 amended: for every successful `recommend_books` call whose item
metadata has pairwise-distinct ISBNs (true of a deduplicated catalogue,
though not enforced by the loader), the result has length at most `top_n`
and is sorted descending by predicted score — non-strictly: items with
equal predicted scores appear in consecutive positions (the original
claim's "strictly descending" fails on ties, see `C6_counterexample`,
which also shows the length bound needs the distinct-ISBN hypothesis). -/
theorem C6_len_sorted_amended {s : DState ℚ} {uid : Int} {k n : ℕ}
    {L : List (Book × ℚ)}
    (hb : (s.books.map (fun b => b.isbn)).Nodup)
    (hok : recommend_books s uid k n = .ok L) :
    L.length ≤ n ∧ L.Sorted (fun p q : Book × ℚ => q.2 ≤ p.2) := by
  obtain ⟨ui, _, hL⟩ := recommend_books_ok hok
  subst hL
  constructor
  · unfold rankedBooks
    rw [List.length_insertionSort, List.length_map]
    have h1 : ((s.books.filter (fun b =>
        decide (b.isbn ∈ (topBookIndices s ui (min k (s.userIds.length - 1)) n).map
          (fun c => s.columns.getD c "")))).map (fun b => b.isbn)).Nodup :=
      List.Nodup.sublist ((List.filter_sublist s.books).map (fun b => b.isbn)) hb
    have h2 : ∀ x ∈ (s.books.filter (fun b =>
        decide (b.isbn ∈ (topBookIndices s ui (min k (s.userIds.length - 1)) n).map
          (fun c => s.columns.getD c "")))).map (fun b => b.isbn),
        x ∈ (topBookIndices s ui (min k (s.userIds.length - 1)) n).map
          (fun c => s.columns.getD c "") := by
      intro x hx
      obtain ⟨b, hbf, rfl⟩ := List.mem_map.mp hx
      exact of_decide_eq_true (List.mem_filter.mp hbf).2
    calc (s.books.filter (fun b =>
          decide (b.isbn ∈ (topBookIndices s ui (min k (s.userIds.length - 1)) n).map
            (fun c => s.columns.getD c "")))).length
        = ((s.books.filter (fun b =>
            decide (b.isbn ∈ (topBookIndices s ui (min k (s.userIds.length - 1)) n).map
              (fun c => s.columns.getD c "")))).map (fun b => b.isbn)).length := by
          rw [List.length_map]
      _ = ((s.books.filter (fun b =>
            decide (b.isbn ∈ (topBookIndices s ui (min k (s.userIds.length - 1)) n).map
              (fun c => s.columns.getD c "")))).map (fun b => b.isbn)).toFinset.card := by
          rw [List.toFinset_card_of_nodup h1]
      _ ≤ ((topBookIndices s ui (min k (s.userIds.length - 1)) n).map
            (fun c => s.columns.getD c "")).toFinset.card := by
          refine Finset.card_le_card ?_
          intro x hx
          exact List.mem_toFinset.mpr (h2 x (List.mem_toFinset.mp hx))
      _ ≤ ((topBookIndices s ui (min k (s.userIds.length - 1)) n).map
            (fun c => s.columns.getD c "")).length := List.toFinset_card_le _
      _ ≤ n := by
          rw [List.length_map]
          unfold topBookIndices
          rw [List.length_take]
          exact min_le_left _ _
  · exact List.sorted_insertionSort _ _

/-- Witness for the amended C6 at `stTie`. -/
theorem C6_len_sorted_amended_witness :
    [((sampleBook "I2" : Book), (4 : ℚ)), (sampleBook "I3", 4)].length ≤ 2 ∧
    [((sampleBook "I2" : Book), (4 : ℚ)), (sampleBook "I3", 4)].Sorted
      (fun p q : Book × ℚ => q.2 ≤ p.2) :=
  @C6_len_sorted_amended stTie 1 1 2
    [(sampleBook "I2", 4), (sampleBook "I3", 4)]
    (by decide) (by with_unfolding_all decide)

/-! ## C5 — what a failed load leaves behind -/

/-- A previously loaded one-user, one-book context (real-valued, as the
loader stores). -/
def stPrior : DState ℝ :=
  { books := [sampleBook "X"], userIds := [7], columns := ["X"],
    matrix := [[5]], sim := [[1]], isLoaded := true }

/-- A load input whose only rating is the implicit-feedback value 0: after
the `> 0` filter the table is empty, the pivot has zero rows, and
`cosine_similarity` raises on the 0-sample array. -/
def inpZeroRatings : LoadInput :=
  { books := [sampleBook "X"], ratings := [⟨7, "X", 0⟩], users := [⟨7⟩] }

/-- C5 counterexample: the claim says a failed load leaves the previously
loaded dataset intact and usable.  Loading `inpZeroRatings` over `stPrior`
fails, and afterwards the status query reports not-loaded, a recommend
call for the previously valid user returns the not-loaded error, and the
metadata frame has already been replaced — the prior dataset is gone. -/
theorem C5_counterexample :
    stPrior.isLoaded = true ∧
    get_status stPrior = .loaded 1 1 1 ∧
    (load_datasets stPrior inpZeroRatings).1.isLoaded = false ∧
    get_status (load_datasets stPrior inpZeroRatings).1 = .notLoaded ∧
    recommend_books (load_datasets stPrior inpZeroRatings).1 7 10 10 =
      RecResult.notLoaded ∧
    (load_datasets stPrior inpZeroRatings).1.books = stPrior.books := by
  have hload : (load_datasets stPrior inpZeroRatings).1.isLoaded = false := by
    with_unfolding_all rfl
  refine ⟨rfl, ?_, hload, ?_, ?_, by with_unfolding_all rfl⟩
  · unfold get_status stPrior countNonzero
    simp only [if_pos rfl, List.map_cons, List.map_nil, List.countP_cons,
      List.countP_nil, List.sum_cons, List.sum_nil]
    norm_num
  · unfold get_status
    rw [hload]
    simp
  · unfold recommend_books
    rw [hload]
    simp

/-- C5 amended: on a failed load (modelled failure condition: the filtered
table pivots to zero rows, making `cosine_similarity` raise) the context is
NOT left in its prior state; instead the raw frames are already
overwritten, `_is_loaded` is cleared — so status reports not-loaded and
every recommend call returns the not-loaded error until a successful
reload — and only the stale `_user_similarity` array survives.  The
original claim described the intended all-or-nothing behaviour, which the
implementation does not have (the spec itself flags this in §7/§9). -/
theorem C5_failed_load_amended (s : DState ℝ) (inp : LoadInput)
    (uid : Int) (k n : ℕ) (hfail : pivotUserIds inp = []) :
    (load_datasets s inp).1.isLoaded = false ∧
    (load_datasets s inp).2 = none ∧
    (load_datasets s inp).1.books = inp.books ∧
    (load_datasets s inp).1.sim = s.sim ∧
    recommend_books (load_datasets s inp).1 uid k n = RecResult.notLoaded ∧
    get_status (load_datasets s inp).1 = .notLoaded := by
  have hcond : (pivotUserIds inp).length = 0 := by rw [hfail]; rfl
  have hres : load_datasets s inp =
      ({ books := inp.books, userIds := pivotUserIds inp,
         columns := pivotColumns inp,
         matrix := (pivotMatrix inp).map (fun row => row.map (fun q => (q : ℝ))),
         sim := s.sim, isLoaded := false }, none) := by
    simp only [load_datasets]
    rw [if_pos hcond]
  rw [hres]
  exact ⟨rfl, rfl, rfl, rfl, by simp [recommend_books], by simp [get_status]⟩

/-- Witness for the amended C5 at the concrete prior state and failing
input. -/
theorem C5_failed_load_amended_witness :
    (load_datasets stPrior inpZeroRatings).1.isLoaded = false ∧
    (load_datasets stPrior inpZeroRatings).2 = none ∧
    (load_datasets stPrior inpZeroRatings).1.books = inpZeroRatings.books ∧
    (load_datasets stPrior inpZeroRatings).1.sim = stPrior.sim ∧
    recommend_books (load_datasets stPrior inpZeroRatings).1 7 10 10 =
      RecResult.notLoaded ∧
    get_status (load_datasets stPrior inpZeroRatings).1 = .notLoaded :=
  C5_failed_load_amended stPrior inpZeroRatings 7 10 10
    (by with_unfolding_all decide)

/-! ## C3 — nonzero counts of the pivoted matrix -/

theorem mem_mergedRows_pos {inp : LoadInput} {r : RatingRow}
    (hr : r ∈ mergedRows inp) : 0 < r.rating := by
  unfold mergedRows at hr
  obtain ⟨r1, hr1, hmem⟩ := List.mem_flatMap.mp hr
  obtain ⟨u, hu, rfl⟩ := List.mem_map.mp hmem
  obtain ⟨r2, hr2, hmem2⟩ := List.mem_flatMap.mp hr1
  obtain ⟨b, hb, rfl⟩ := List.mem_map.mp hmem2
  exact of_decide_eq_true (List.mem_filter.mp hr2).2

theorem mem_bookFiltered_pos {inp : LoadInput} {r : RatingRow}
    (hr : r ∈ bookFiltered inp) : 0 < r.rating := by
  unfold bookFiltered at hr
  have h1 := (List.mem_filter.mp hr).1
  unfold userFiltered at h1
  exact mem_mergedRows_pos (List.mem_filter.mp h1).1

/-- Every row surviving the book filter belongs to an ISBN with at least
`min_book_ratings = 2` rows in the final table itself: the filter keeps
either all rows of an ISBN or none, so the count is unchanged. -/
theorem bookFiltered_count_ge {inp : LoadInput} {r : RatingRow}
    (hr : r ∈ bookFiltered inp) :
    2 ≤ (bookFiltered inp).countP (fun x => decide (x.isbn = r.isbn)) := by
  have h2 : 2 ≤ (userFiltered inp).countP (fun x => decide (x.isbn = r.isbn)) := by
    unfold bookFiltered at hr
    exact of_decide_eq_true (List.mem_filter.mp hr).2
  unfold bookFiltered
  rw [List.countP_filter]
  have hcong : (userFiltered inp).countP (fun a => decide (a.isbn = r.isbn) &&
      decide (2 ≤ (userFiltered inp).countP (fun x => decide (x.isbn = a.isbn)))) =
      (userFiltered inp).countP (fun a => decide (a.isbn = r.isbn)) := by
    apply List.countP_congr
    intro a _
    by_cases hab : a.isbn = r.isbn
    · simp [hab, h2]
    · simp [hab]
  rw [hcong]
  exact h2

theorem exists_pair_of_countP {β : Type} {p : β → Bool} {R : β → β → Prop} :
    ∀ {l : List β}, l.Pairwise R → 2 ≤ l.countP p →
      ∃ a b, a ∈ l ∧ b ∈ l ∧ p a = true ∧ p b = true ∧ R a b := by
  intro l
  induction l with
  | nil => intro _ h; simp [List.countP_nil] at h
  | cons x t ih =>
    intro hp h2
    rw [List.countP_cons] at h2
    have hpt := List.pairwise_cons.mp hp
    by_cases hx : p x = true
    · have h1 : 0 < t.countP p := by
        rw [if_pos hx] at h2
        omega
      obtain ⟨b, hb, hpb⟩ := List.countP_pos_iff.mp h1
      exact ⟨x, b, List.mem_cons_self x t, List.mem_cons_of_mem x hb, hx, hpb,
        hpt.1 b hb⟩
    · have h2' : 2 ≤ t.countP p := by
        rw [if_neg hx] at h2
        omega
      obtain ⟨a, b, ha, hb, hpa, hpb, hr⟩ := ih hpt.2 h2'
      exact ⟨a, b, List.mem_cons_of_mem x ha, List.mem_cons_of_mem x hb, hpa, hpb, hr⟩

theorem two_le_countP_of_mem_ne {β : Type} {l : List β} {a b : β} {p : β → Bool}
    (ha : a ∈ l) (hb : b ∈ l) (hab : a ≠ b)
    (hpa : p a = true) (hpb : p b = true) :
    2 ≤ l.countP p := by
  rw [List.countP_eq_length_filter]
  have haf : a ∈ l.filter p := List.mem_filter.mpr ⟨ha, hpa⟩
  have hbf : b ∈ l.filter p := List.mem_filter.mpr ⟨hb, hpb⟩
  rcases hf : l.filter p with _ | ⟨x, _ | ⟨y, t⟩⟩
  · rw [hf] at haf
    exact absurd haf (List.not_mem_nil a)
  · rw [hf] at haf hbf
    simp only [List.mem_singleton] at haf hbf
    exact absurd (haf.trans hbf.symm) hab
  · simp

theorem mem_sortedKeysInt {l : List Int} {u : Int} :
    u ∈ sortedKeysInt l ↔ u ∈ l := by
  unfold sortedKeysInt
  rw [(List.perm_insertionSort _ _).mem_iff, List.mem_dedup]

theorem mem_sortedKeysStr {l : List String} {x : String} :
    x ∈ sortedKeysStr l ↔ x ∈ l := by
  unfold sortedKeysStr
  rw [(List.perm_insertionSort _ _).mem_iff, List.mem_dedup]

theorem cellValue_pos {tbl : List RatingRow} (hpos : ∀ x ∈ tbl, 0 < x.rating)
    {u : Int} {c : String} {r : RatingRow} (hr : r ∈ tbl)
    (hu : r.userId = u) (hc : r.isbn = c) :
    0 < cellValue tbl u c := by
  simp only [cellValue]
  set rs := (tbl.filter (fun x => decide (x.userId = u ∧ x.isbn = c))).map
    (fun x => x.rating) with hrs
  have hmem : r.rating ∈ rs :=
    List.mem_map_of_mem _ (List.mem_filter.mpr ⟨hr, by simp [hu, hc]⟩)
  have hne : rs.length ≠ 0 := by
    intro h0
    rw [List.length_eq_zero.mp h0] at hmem
    exact absurd hmem (List.not_mem_nil _)
  rw [if_neg hne]
  refine div_pos ?_ ?_
  · refine List.sum_pos rs ?_ ?_
    · intro y hy
      obtain ⟨x, hx, rfl⟩ := List.mem_map.mp hy
      exact hpos x (List.mem_filter.mp hx).1
    · intro h0
      rw [h0] at hmem
      exact absurd hmem (List.not_mem_nil _)
  · exact_mod_cast Nat.pos_of_ne_zero hne

/-- C3 amended, column half: when the final filtered table has no duplicate
(user, ISBN) pairs, every column of the pivoted matrix has at least
`min_book_ratings = 2` nonzero cells: the surviving rows of that ISBN
number at least 2 and belong to distinct users, each contributing a
positive mean cell.  (The row half of the original claim is false — the
book filter runs after the user filter and can leave a retained user with
fewer than `min_user_ratings = 3` rows, and duplicate pairs collapse in the
mean-aggregating pivot; see `C3_counterexample`.) -/
theorem C3_column_amended (inp : LoadInput)
    (hnd : (bookFiltered inp).Pairwise
      (fun a b => a.userId ≠ b.userId ∨ a.isbn ≠ b.isbn))
    (c : ℕ) (hc : c < (pivotColumns inp).length) :
    2 ≤ ((pivotMatrix inp).map (fun row => row.getD c 0)).countP
      (fun x => decide (x ≠ 0)) := by
  have hxmem : (pivotColumns inp)[c] ∈ pivotColumns inp := List.getElem_mem _
  have hxtbl : (pivotColumns inp)[c] ∈ (bookFiltered inp).map (fun r => r.isbn) :=
    mem_sortedKeysStr.mp hxmem
  obtain ⟨r0, hr0, hx0⟩ := List.mem_map.mp hxtbl
  have h2 : 2 ≤ (bookFiltered inp).countP
      (fun x => decide (x.isbn = (pivotColumns inp)[c])) := by
    have h := bookFiltered_count_ge hr0
    rw [hx0] at h
    exact h
  obtain ⟨a, b, ha, hb, hpa, hpb, hR⟩ := exists_pair_of_countP hnd h2
  have hai : a.isbn = (pivotColumns inp)[c] := of_decide_eq_true hpa
  have hbi : b.isbn = (pivotColumns inp)[c] := of_decide_eq_true hpb
  have hune : a.userId ≠ b.userId := by
    rcases hR with h | h
    · exact h
    · exact absurd (hai.trans hbi.symm) h
  have hmap : (pivotMatrix inp).map (fun row => row.getD c 0) =
      (pivotUserIds inp).map
        (fun u => cellValue (bookFiltered inp) u ((pivotColumns inp)[c])) := by
    unfold pivotMatrix
    rw [List.map_map]
    apply List.map_congr_left
    intro u _
    simp only [Function.comp_apply]
    rw [List.getD_eq_getElem?_getD, List.getElem?_map,
      List.getElem?_eq_getElem hc]
    rfl
  rw [hmap, List.countP_map]
  have haU : a.userId ∈ pivotUserIds inp :=
    mem_sortedKeysInt.mpr (List.mem_map_of_mem _ ha)
  have hbU : b.userId ∈ pivotUserIds inp :=
    mem_sortedKeysInt.mpr (List.mem_map_of_mem _ hb)
  refine two_le_countP_of_mem_ne haU hbU hune ?_ ?_
  · show decide (cellValue (bookFiltered inp) a.userId ((pivotColumns inp)[c]) ≠ 0) = true
    exact decide_eq_true (ne_of_gt
      (cellValue_pos (fun x hx => mem_bookFiltered_pos hx) ha rfl hai))
  · show decide (cellValue (bookFiltered inp) b.userId ((pivotColumns inp)[c]) ≠ 0) = true
    exact decide_eq_true (ne_of_gt
      (cellValue_pos (fun x hx => mem_bookFiltered_pos hx) hb rfl hbi))

/-- C3 counterexample input 1: one user rates the same ISBN three times;
every threshold passes on the long table, but the pivot collapses the
duplicates into a single cell. -/
def inpDup : LoadInput :=
  { books := [sampleBook "B"],
    ratings := [⟨1, "B", 5⟩, ⟨1, "B", 5⟩, ⟨1, "B", 5⟩],
    users := [⟨1⟩] }

/-- C3 counterexample input 2: no duplicate pairs at all; user 1's books
"B2"/"B3" have only one rating each, so the book filter (which runs after
the user filter) strips user 1's row down to a single nonzero cell. -/
def inpChain : LoadInput :=
  { books := [sampleBook "B1", sampleBook "B2", sampleBook "B3",
              sampleBook "B4", sampleBook "B5", sampleBook "B6"],
    ratings := [⟨1, "B1", 5⟩, ⟨1, "B2", 5⟩, ⟨1, "B3", 5⟩,
                ⟨2, "B1", 5⟩, ⟨2, "B4", 5⟩, ⟨2, "B5", 5⟩,
                ⟨3, "B4", 5⟩, ⟨3, "B5", 5⟩, ⟨3, "B6", 5⟩],
    users := [⟨1⟩, ⟨2⟩, ⟨3⟩] }

/-- C3 counterexample: both loads succeed (nonempty pivot), yet with
duplicates (`inpDup`) the single matrix row has 1 < 3 nonzero cells and the
single column 1 < 2, and without any duplicates (`inpChain`, whose final
table is pairwise-distinct) user 1's row still has only 1 < 3 nonzero
cells. -/
theorem C3_counterexample :
    (pivotUserIds inpDup).length ≠ 0 ∧
    pivotMatrix inpDup = [[5]] ∧
    ((pivotMatrix inpDup).getD 0 []).countP (fun x => decide (x ≠ 0)) < 3 ∧
    ((pivotMatrix inpDup).map (fun row => row.getD 0 0)).countP
      (fun x => decide (x ≠ 0)) < 2 ∧
    (pivotUserIds inpChain).length ≠ 0 ∧
    (bookFiltered inpChain).Pairwise
      (fun a b => a.userId ≠ b.userId ∨ a.isbn ≠ b.isbn) ∧
    ((pivotMatrix inpChain).getD 0 []).countP (fun x => decide (x ≠ 0)) < 3 := by
  exact ⟨by with_unfolding_all decide, by with_unfolding_all decide,
    by with_unfolding_all decide, by with_unfolding_all decide,
    by with_unfolding_all decide, by with_unfolding_all decide,
    by with_unfolding_all decide⟩

/-- Witness for the amended C3 at `inpChain`, column 0 (ISBN "B1"). -/
theorem C3_column_amended_witness :
    2 ≤ ((pivotMatrix inpChain).map (fun row => row.getD 0 0)).countP
      (fun x => decide (x ≠ 0)) :=
  C3_column_amended inpChain (by with_unfolding_all decide) 0
    (by with_unfolding_all decide)

end Bookyard
